import Mathlib

/-!
Verification of the VIPER (cobrapy) segmentation/preprocessing pipeline and
analysis job queue, shallowly embedded from the Python sources.

Times and durations are modelled as rationals; Python `math.floor` /
`math.ceil` become `Int.floor` / `Int.ceil`, `numpy.linspace` is given its
documented closed-interval semantics, and `round(x, 2)` becomes rounding to
the nearest multiple of 1/100.
-/

set_option maxHeartbeats 1000000

/-! ## Segment planner — `VideoClient._generate_segments` (cobrapy/video_client.py) -/

/-- The processing parameters consumed by `_generate_segments`:
`source_video.duration`, `processing_params.segment_length`,
`processing_params.fps`, `processing_params.trim_to_nearest_second`,
`processing_params.allow_partial_segments`. -/
structure PlanParams where
  duration : ℚ
  segment_length : ℚ
  fps : ℚ
  trim_to_nearest_second : Bool
  allow_partial_segments : Bool

/-- Embeds `effective_duration = math.floor(video_duration) if trim_to_nearest_second
else video_duration`. -/
def effective_duration (p : PlanParams) : ℚ :=
  if p.trim_to_nearest_second then (⌊p.duration⌋ : ℚ) else p.duration

/-- Embeds `num_segments = math.ceil(effective_duration / segment_length)` if
`allow_partial_segments` else `math.floor(effective_duration / segment_length)`. -/
def num_segments (p : PlanParams) : ℤ :=
  if p.allow_partial_segments then ⌈effective_duration p / p.segment_length⌉
  else ⌊effective_duration p / p.segment_length⌋

/-- Embeds `start_time = i * segment_length` for segment index `i`. -/
def seg_start (p : PlanParams) (i : ℕ) : ℚ := (i : ℚ) * p.segment_length

/-- Embeds `end_time = min((i + 1) * segment_length, effective_duration)`. -/
def seg_end (p : PlanParams) (i : ℕ) : ℚ :=
  min (((i : ℚ) + 1) * p.segment_length) (effective_duration p)

/-- Embeds `segment_duration = end_time - start_time`. -/
def seg_duration (p : PlanParams) (i : ℕ) : ℚ := seg_end p i - seg_start p i

/-- One planned segment record (the fields of `Segment` that the planner
fills in, minus file-system paths). -/
structure SegmentPlan where
  start_time : ℚ
  end_time : ℚ
  segment_duration : ℚ
  number_of_frames : ℕ
  segment_frame_time_intervals : List ℚ

/-- Embeds `number_of_frames_in_segment = math.ceil(segment_duration * analysis_fps)`. -/
def number_of_frames_in_segment (p : PlanParams) (i : ℕ) : ℕ :=
  (⌈seg_duration p i * p.fps⌉).toNat

/-- Embeds `numpy.linspace(a, b, n)`: `n` evenly spaced samples over the closed
interval `[a, b]` (the endpoint is included when `n ≥ 2`). -/
def linspace (a b : ℚ) (n : ℕ) : List ℚ :=
  if n = 0 then []
  else if n = 1 then [a]
  else (List.range n).map fun (i : ℕ) => a + (i : ℚ) * (b - a) / ((n : ℚ) - 1)

/-- Python `round(x, 2)`: round to the nearest multiple of 1/100. -/
def round2 (q : ℚ) : ℚ := (round (q * 100) : ℤ) / 100

/-- Embeds `segment_frames_times = [round(x, 2) for x in np.linspace(start_time,
end_time, number_of_frames_in_segment)]`. -/
def segment_frames_times (p : PlanParams) (i : ℕ) : List ℚ :=
  (linspace (seg_start p i) (seg_end p i) (number_of_frames_in_segment p i)).map round2

/-- The loop body of `_generate_segments`, building segment `i`. -/
def plan_segment (p : PlanParams) (i : ℕ) : SegmentPlan :=
  { start_time := seg_start p i
    end_time := seg_end p i
    segment_duration := seg_duration p i
    number_of_frames := number_of_frames_in_segment p i
    segment_frame_time_intervals := segment_frames_times p i }

/-- Embeds `_generate_segments`: the full list of planned segments, one per
`i in range(num_segments)`. -/
def generate_segments (p : PlanParams) : List SegmentPlan :=
  (List.range (num_segments p).toNat).map (plan_segment p)

/-! ## Analysis queue — `src/cobrapy/queue_manager.py` -/

/-- Embeds `AnalysisQueueConfig` (all fields are Python ints). -/
structure AnalysisQueueConfig where
  max_concurrent_jobs : ℤ
  max_pending_jobs : ℤ
  max_preprocess_workers : ℤ
  default_preprocess_workers : ℤ
  tokens_per_minute : ℤ
  base_tokens_per_request : ℤ
  tokens_per_segment : ℤ
  lens_chars_per_token : ℤ
  max_lens_token_bonus : ℤ

/-- Embeds `queue_size = 0 if self.config.max_pending_jobs <= 0 else
self.config.max_pending_jobs` — the `maxsize` handed to `queue.Queue`. -/
def queue_size (c : AnalysisQueueConfig) : ℤ :=
  if c.max_pending_jobs ≤ 0 then 0 else c.max_pending_jobs

/-- CPython `queue.Queue` fullness: `put(block=False)` raises `Full` exactly
when `0 < maxsize` and the current size has reached `maxsize`; a queue with
`maxsize <= 0` is unbounded and never full. -/
def queue_is_full (maxsize : ℤ) (pending : ℕ) : Bool :=
  decide (0 < maxsize) && decide (maxsize ≤ (pending : ℤ))

/-- The queue state observed by `AnalysisQueue.submit`: the configuration it
was constructed from, the number of jobs currently sitting in the queue, and
the `_shutdown` flag. -/
structure QueueState where
  config : AnalysisQueueConfig
  pending : ℕ
  isShutdown : Bool

/-- Outcome of one `AnalysisQueue.submit` call. -/
inductive SubmitOutcome where
  | enqueued (newPending : ℕ)
  | queueFullError
  | shutdownError
  deriving DecidableEq, Repr

/-- Embeds `AnalysisQueue.submit`: raise `RuntimeError` if shut down; otherwise try a
non-blocking `put` which raises `Full` (re-raised as `QueueFullError`) exactly
when the bounded queue is at capacity; otherwise the job joins the queue. -/
def submit (s : QueueState) : SubmitOutcome :=
  if s.isShutdown then .shutdownError
  else if queue_is_full (queue_size s.config) s.pending then .queueFullError
  else .enqueued (s.pending + 1)

/-- Whether a submit outcome is an error (an exception raised to the caller). -/
def SubmitOutcome.isError : SubmitOutcome → Bool
  | .enqueued _ => false
  | .queueFullError => true
  | .shutdownError => true

/-! ## Token bucket — `TokenBucket` in `src/cobrapy/queue_manager.py` -/

/-- The mutable state of a `TokenBucket`: integer `capacity`, float `_tokens`,
`_refill_period`, and `_last_refill` (a monotonic-clock reading). -/
structure BucketState where
  capacity : ℤ
  tokens : ℚ
  refill_period : ℚ
  last_refill : ℚ

/-- Embeds `TokenBucket.__init__`: rejects non-positive capacity, otherwise starts
with a full bucket (`_tokens = float(capacity)`). -/
def mkTokenBucket (capacity : ℤ) (refill_period now : ℚ) : Except String BucketState :=
  if capacity ≤ 0 then .error ("Token bucket capacity must be positive")
  else .ok { capacity := capacity, tokens := (capacity : ℚ),
             refill_period := refill_period, last_refill := now }

/-- Embeds `TokenBucket._refill_locked` at monotonic time `now`: no-op when no time
has elapsed, otherwise add `elapsed * capacity / refill_period` tokens capped
at `capacity`. -/
def refill_locked (s : BucketState) (now : ℚ) : BucketState :=
  if now - s.last_refill ≤ 0 then s
  else { s with
          tokens := min (s.capacity : ℚ)
            (s.tokens + (now - s.last_refill) * ((s.capacity : ℚ) / s.refill_period)),
          last_refill := now }

/-- One iteration of the `TokenBucket.acquire` loop at monotonic time `now`:
if `tokens <= 0` the call returns at once without touching the state;
otherwise refill, then grant (debit and return `true`) when enough tokens are
available, else leave the refilled state and report `false` (the thread then
waits and retries). -/
def try_acquire (s : BucketState) (n : ℤ) (now : ℚ) : BucketState × Bool :=
  if n ≤ 0 then (s, true)
  else if (n : ℚ) ≤ (refill_locked s now).tokens then
    ({ refill_locked s now with tokens := (refill_locked s now).tokens - (n : ℚ) }, true)
  else (refill_locked s now, false)

/-- An observable event against a token bucket: a refill triggered at some
clock reading, or an acquire attempt of `n` tokens at some clock reading. -/
inductive BucketEvent where
  | refill (now : ℚ)
  | acquire (n : ℤ) (now : ℚ)

/-- Apply one event to the bucket state. -/
def bucket_step (s : BucketState) : BucketEvent → BucketState
  | .refill now => refill_locked s now
  | .acquire n now => (try_acquire s n now).1

/-- Apply a sequence of events to the bucket state. -/
def bucket_run (s : BucketState) (events : List BucketEvent) : BucketState :=
  events.foldl bucket_step s

/-! ## Transcription model — `src/cobrapy/models/transcription.py` and the
chunked-audio helpers in `src/cobrapy/cobra_utils.py` -/

/-- Embeds `WordTiming`: one spoken word with its timing (field `end` is renamed
`endTime`, `end` being reserved in Lean). -/
structure WordTiming where
  word : String
  start : ℚ
  endTime : ℚ
  confidence : Option ℚ
  deriving DecidableEq, Repr

/-- Embeds `SegmentTiming`: a contiguous segment of speech. -/
structure SegmentTiming where
  text : String
  start : ℚ
  endTime : ℚ
  words : List WordTiming
  deriving DecidableEq, Repr

/-- Embeds `TranscriptionResult`: the full transcription of an audio file. -/
structure TranscriptionResult where
  text : String
  duration : Option ℚ
  words : List WordTiming
  segments : List SegmentTiming
  deriving DecidableEq, Repr

/-- Embeds `TranscriptionResult.extend`: merge `other` into `self` — concatenate the
word and speech-segment lists, join the texts with a space, and combine
durations by `max` (keeping whichever is present when only one is). -/
def TranscriptionResult.extend (self other : TranscriptionResult) : TranscriptionResult :=
  { text :=
      if other.text ≠ "" then
        if self.text ≠ "" then (self.text ++ " " ++ other.text).trim
        else other.text
      else self.text
    words := self.words ++ other.words
    segments := self.segments ++ other.segments
    duration :=
      match other.duration, self.duration with
      | none, d => d
      | some od, none => some od
      | some od, some sd => some (max sd od) }

/-- Shift the timestamps of one word forward by `offset` (the loop body in
`process_chunk`). -/
def shift_word (offset : ℚ) (w : WordTiming) : WordTiming :=
  { w with start := w.start + offset, endTime := w.endTime + offset }

/-- Shift the timestamps of one speech segment forward by `offset`. -/
def shift_segment (offset : ℚ) (s : SegmentTiming) : SegmentTiming :=
  { s with start := s.start + offset, endTime := s.endTime + offset }

/-- Embeds `process_chunk` (post-transcription part): given the raw chunk
transcript and its start offset within the full audio, shift every word and
speech-segment timestamp forward by the offset and turn the chunk-relative
duration into the end offset of the chunk (`duration + start_time`). -/
def process_chunk (t : TranscriptionResult) (start_time : ℚ) : TranscriptionResult :=
  { t with
      words := t.words.map (shift_word start_time)
      segments := t.segments.map (shift_segment start_time)
      duration := t.duration.map (· + start_time) }

/-- Embeds `parallelize_transcription` (merge part): `executor.map` preserves the
input order, so the per-chunk transcripts come back in original chunk order;
the first is then extended with each of the rest in order. The empty-chunk
case would raise `IndexError`, modelled as `none`. -/
def parallelize_transcription (transcripts : List TranscriptionResult) :
    Option TranscriptionResult :=
  match transcripts with
  | [] => none
  | c :: rest => some (rest.foldl TranscriptionResult.extend c)

/-- The chunked-audio stitch end to end: shift each chunk transcript by its
start offset (`process_chunk`), then merge in chunk order. -/
def combine_chunks (chunks : List (TranscriptionResult × ℚ)) : Option TranscriptionResult :=
  parallelize_transcription (chunks.map fun c => process_chunk c.1 c.2)

/-! ## Transcript slicing — `parse_transcript` -/

/-- Embeds `parse_transcript` (current copy, `src/cobrapy/cobra_utils.py`): validate
the window, then keep the words with `word.start >= start_time and
word.end <= end_time` and join their text with single spaces. -/
def parse_transcript (t : TranscriptionResult) (start_time end_time : ℚ) :
    Except String String :=
  if start_time > end_time then
    .error ("The start time is greater than the end time.")
  else if start_time < 0 then
    .error ("The start time is less than 0.")
  else
    .ok (String.intercalate (" ")
      ((t.words.filter fun w => decide (w.start ≥ start_time) && decide (w.endTime ≤ end_time)).map
        WordTiming.word))

/-- Embeds `parse_transcript` (legacy copy, `cobrapy/cobra_utils.py`): same
validation, but the lower boundary test is strict —
`word["start"] > start_time`. -/
def parse_transcript_legacy (t : TranscriptionResult) (start_time end_time : ℚ) :
    Except String String :=
  if start_time > end_time then
    .error ("The start time is greater than the end time.")
  else if start_time < 0 then
    .error ("The start time is less than 0.")
  else
    .ok (String.intercalate (" ")
      ((t.words.filter fun w => decide (w.start > start_time) && decide (w.endTime ≤ end_time)).map
        WordTiming.word))

/-! ## Token estimation — `AnalysisQueue.estimate_tokens` -/

/-- The `segment_metadata` attribute as `estimate_tokens` sees it:
`getattr(metadata, "num_segments", 0)` yields `none` when the attribute is
missing. -/
structure SegmentMetadataModel where
  num_segments : Option ℤ

/-- The manifest attributes `estimate_tokens` reads: `getattr(manifest,
"segments", None)` and `getattr(manifest, "segment_metadata", None)`, either
of which may be absent. -/
structure ManifestModel where
  segments : Option (List Unit)
  segment_metadata : Option SegmentMetadataModel

/-- Python `value or 0` on an optional int: `None` and `0` are falsy and give
`0`; any other int is returned unchanged. -/
def py_or_zero (v : Option ℤ) : ℤ :=
  match v with
  | none => 0
  | some n => if n = 0 then 0 else n

/-- The segment count used by `estimate_tokens`:
`segments = getattr(manifest, "segments", None) or []`;
`len(segments)` if non-empty, else
`getattr(getattr(manifest, "segment_metadata", None), "num_segments", 0) or 0`. -/
def code_segment_count (m : ManifestModel) : ℤ :=
  let segments := (m.segments.getD []).length
  if segments = 0 then
    py_or_zero (m.segment_metadata.bind SegmentMetadataModel.num_segments)
  else (segments : ℤ)

/-- Embeds `AnalysisQueue.estimate_tokens`: base cost plus per-segment cost, plus —
when `analysis_lens` is truthy (present and non-empty) — a lens bonus of
`max(len(lens) // max(chars_per_token, 1), 0)` capped at
`max_lens_token_bonus`; the total is capped at the capacity of the token bucket
(`tokens_per_minute`). Python `//` is floor division (`Int.fdiv`). -/
def estimate_tokens (c : AnalysisQueueConfig) (m : ManifestModel)
    (analysis_lens : Option String) : ℤ :=
  let tokens := c.base_tokens_per_request + code_segment_count m * c.tokens_per_segment
  let tokens :=
    match analysis_lens with
    | some lens =>
        if lens ≠ "" then
          tokens + min (max (Int.fdiv (lens.length : ℤ) (max c.lens_chars_per_token 1)) 0)
                        c.max_lens_token_bonus
        else tokens
    | none => tokens
  min tokens c.tokens_per_minute

/-- Embeds `AnalysisQueue.clamp_max_workers`. -/
def clamp_max_workers (c : AnalysisQueueConfig) (requested : Option ℤ) : ℤ :=
  match requested with
  | none => c.default_preprocess_workers
  | some r => if r ≤ 0 then c.default_preprocess_workers else min r c.max_preprocess_workers

/-! ## Per-segment preprocessing — `VideoClient._preprocess_segment` and the
dispatch loop in `VideoClient.preprocess_video` (cobrapy/video_client.py) -/

/-- The externally determined outcomes of the effectful steps inside one
`_preprocess_segment` call: frame extraction (which may raise) and — when a
transcript exists — the `parse_transcript` slice (which may raise). -/
structure SegmentWork where
  frame_extraction : Except String (List String)
  transcript_slice : Except String String

/-- Embeds `_preprocess_segment`: the whole body sits inside a `try`; frame
extraction runs first, then (only when transcripts are enabled) the
transcript slice. Any exception is caught at the per-segment boundary and
converted into `(index, False)`; otherwise the call returns `(index, True)`. -/
def preprocess_segment (create_transcript_flag : Bool) (w : SegmentWork) (index : ℕ) :
    ℕ × Bool :=
  match w.frame_extraction with
  | .error _ => (index, false)
  | .ok _ =>
    if create_transcript_flag then
      match w.transcript_slice with
      | .error _ => (index, false)
      | .ok _ => (index, true)
    else (index, true)

/-- The per-segment record fields that the dispatch loop reads and writes. -/
structure SegmentInfo where
  processed : Bool
  deriving DecidableEq, Repr

/-- The indices the `preprocess_video` loop submits to the executor: segments
whose `processed` flag is already `true` are skipped (`continue`). -/
def submitted_indices (segs : List SegmentInfo) : List ℕ :=
  (List.range segs.length).filter fun i => !(segs.getD i ⟨true⟩).processed

/-- What happens to the segment at index `i` over one `preprocess_video`
pass: a segment already marked processed is skipped untouched; otherwise
`_preprocess_segment` runs and the result boolean is written back into
`manifest.segments[i].processed`. -/
def process_one (flag : Bool) (i : ℕ) (entry : SegmentInfo × SegmentWork) : SegmentInfo :=
  if entry.1.processed then entry.1
  else { entry.1 with processed := (preprocess_segment flag entry.2 i).2 }

/-- One full `preprocess_video` dispatch pass over the segments of the manifest:
results come back from `as_completed` in any order but are written back by
index, so the final state is the element-wise update. -/
def run_preprocess_pass (flag : Bool) (segs : List (SegmentInfo × SegmentWork)) :
    List SegmentInfo :=
  (List.range segs.length).map fun i => process_one flag i (segs.getD i (⟨true⟩, ⟨.ok [], .ok ("")⟩))

/-- A concrete two-segment dispatch input: segment 0 already processed,
segment 1 unprocessed with failing frame extraction. -/
def segsEx : List (SegmentInfo × SegmentWork) :=
  [({ processed := true }, { frame_extraction := .ok [], transcript_slice := .ok ("") }),
   ({ processed := false }, { frame_extraction := .error ("fail"), transcript_slice := .ok ("") })]

/-! ## Parameter setting in `preprocess_video` (cobrapy/video_client.py) -/

/-- The `processing_params` fields set at the top of `preprocess_video`. -/
structure ProcessingParams where
  fps : ℚ
  segment_length : ℚ
  generate_transcript_flag : Bool
  trim_to_nearest_second : Bool
  allow_partial_segments : Bool
  deriving DecidableEq, Repr

/-- The validation and parameter-setting prefix of `preprocess_video`:
reject non-positive `fps`, reject `segment_length` non-positive or exceeding
the video duration, then set the processing parameters — forcing
`generate_transcript_flag` to `False` whenever `source_video.audio_found` is
`False`, and taking the flag of the caller only when audio is present. -/
def set_processing_params (video_duration : ℚ) (audio_found : Bool)
    (fps segment_length : ℚ) (generate_transcripts_flag : Bool)
    (trim_to_nearest_second allow_partial_segments : Bool) :
    Except String ProcessingParams :=
  if fps ≤ 0 then .error ("fps must be a positive number")
  else if segment_length ≤ 0 ∨ video_duration < segment_length then
    .error ("segment_length must be a positive number and less than the video duration")
  else
    .ok { fps := fps
          segment_length := segment_length
          generate_transcript_flag :=
            if audio_found = false then false else generate_transcripts_flag
          trim_to_nearest_second := trim_to_nearest_second
          allow_partial_segments := allow_partial_segments }

/-- Concrete planning parameters used for evaluation: a 25-second video,
10-second segments, `fps = 0.33`, no trimming, partials allowed. -/
def pEx : PlanParams :=
  { duration := 25, segment_length := 10, fps := 33/100
    trim_to_nearest_second := false, allow_partial_segments := true }

/-- Concrete queue configuration: the defaults from `AnalysisQueueConfig`
(with no environment overrides). -/
def cfgEx : AnalysisQueueConfig :=
  { max_concurrent_jobs := 2, max_pending_jobs := 50
    max_preprocess_workers := 4, default_preprocess_workers := 2
    tokens_per_minute := 1000000, base_tokens_per_request := 9000
    tokens_per_segment := 450, lens_chars_per_token := 4
    max_lens_token_bonus := 2000 }

/-- The default configuration with `max_pending_jobs = 0`. -/
def cfgZero : AnalysisQueueConfig :=
  { cfgEx with max_pending_jobs := 0 }

/-- A concrete word starting exactly at second 5. -/
def wEx : WordTiming :=
  { word := "hello", start := 5, endTime := 6, confidence := none }

/-- A concrete transcript holding only `wEx`. -/
def tEx : TranscriptionResult :=
  { text := "hello", duration := some 10, words := [wEx], segments := [] }

/-- A concrete manifest model with 10 attached segments. -/
def mEx : ManifestModel :=
  { segments := some (List.replicate 10 ())
    segment_metadata := some { num_segments := some 10 } }

/-! ## Segment planner lemmas -/

theorem effective_duration_nonneg (p : PlanParams)
    (hL : 0 < p.segment_length) (hLD : p.segment_length ≤ p.duration) :
    0 ≤ effective_duration p := by
  have hD : 0 ≤ p.duration := le_of_lt (lt_of_lt_of_le hL hLD)
  unfold effective_duration
  split
  · exact_mod_cast Int.floor_nonneg.mpr hD
  · exact hD

theorem num_segments_nonneg (p : PlanParams)
    (hL : 0 < p.segment_length) (heff : 0 ≤ effective_duration p) :
    0 ≤ num_segments p := by
  have hx : 0 ≤ effective_duration p / p.segment_length := div_nonneg heff hL.le
  unfold num_segments
  split
  · exact Int.ceil_nonneg hx
  · exact Int.floor_nonneg.mpr hx

theorem lt_div_of_lt_num (p : PlanParams)
    {j : ℕ} (hj : (j : ℤ) < num_segments p) :
    (j : ℚ) < effective_duration p / p.segment_length := by
  unfold num_segments at hj
  split at hj
  · exact_mod_cast Int.lt_ceil.mp hj
  · have h1 : (j : ℤ) + 1 ≤ ⌊effective_duration p / p.segment_length⌋ := hj
    have h2 := Int.le_floor.mp h1
    push_cast at h2
    linarith

theorem mul_lt_eff_of_lt_num (p : PlanParams) (hL : 0 < p.segment_length)
    {j : ℕ} (hj : (j : ℤ) < num_segments p) :
    (j : ℚ) * p.segment_length < effective_duration p :=
  (lt_div_iff₀ hL).mp (lt_div_of_lt_num p hj)

theorem eff_eq_div_mul (p : PlanParams) (hL : 0 < p.segment_length) :
    (effective_duration p / p.segment_length) * p.segment_length = effective_duration p :=
  div_mul_cancel₀ _ (ne_of_gt hL)

theorem generate_segments_length (p : PlanParams) :
    (generate_segments p).length = (num_segments p).toNat := by
  simp [generate_segments]

theorem generate_segments_get (p : PlanParams) {i : ℕ}
    (hi : i < (generate_segments p).length) :
    (generate_segments p).get ⟨i, hi⟩ = plan_segment p i := by
  simp [generate_segments, List.get_eq_getElem]

theorem lt_num_of_lt_length (p : PlanParams) {i : ℕ}
    (hi : i < (generate_segments p).length) : (i : ℤ) < num_segments p := by
  rw [generate_segments_length] at hi
  exact_mod_cast Int.lt_toNat.mp hi

/-- C1: for every valid input (`0 < L ≤ D`), `_generate_segments` produces
exactly `ceil(effectiveDuration / L)` segments when partial segments are
allowed and `floor(effectiveDuration / L)` otherwise; segment `i` has
`start = i*L`, `end = min((i+1)*L, effectiveDuration)`,
`duration = end - start`; consecutive windows are contiguous
(`end_i = start_(i+1)`), every window is non-degenerate (`start < end`, hence
non-overlapping and strictly increasing), and the windows cover the effective
duration: with partials allowed the last window ends exactly at
`effectiveDuration`, otherwise every window has full length `L`, the covered
total `count*L` is at most `effectiveDuration`, and the uncovered trailing
remainder is smaller than `L` (the disallowed partial). -/
theorem C1_segment_planning (p : PlanParams)
    (hL : 0 < p.segment_length) (hLD : p.segment_length ≤ p.duration) :
    ((generate_segments p).length =
        (if p.allow_partial_segments
          then ⌈effective_duration p / p.segment_length⌉
          else ⌊effective_duration p / p.segment_length⌋).toNat)
    ∧ (∀ i (hi : i < (generate_segments p).length),
        ((generate_segments p).get ⟨i, hi⟩).start_time = (i : ℚ) * p.segment_length
        ∧ ((generate_segments p).get ⟨i, hi⟩).end_time
            = min (((i : ℚ) + 1) * p.segment_length) (effective_duration p)
        ∧ ((generate_segments p).get ⟨i, hi⟩).segment_duration
            = ((generate_segments p).get ⟨i, hi⟩).end_time
              - ((generate_segments p).get ⟨i, hi⟩).start_time)
    ∧ (∀ i, i + 1 < (generate_segments p).length → seg_end p i = seg_start p (i + 1))
    ∧ (∀ i, i < (generate_segments p).length → seg_start p i < seg_end p i)
    ∧ (p.allow_partial_segments = true → 0 < (generate_segments p).length →
        seg_end p ((generate_segments p).length - 1) = effective_duration p)
    ∧ (p.allow_partial_segments = false →
        (∀ i, i < (generate_segments p).length → seg_duration p i = p.segment_length)
        ∧ ((generate_segments p).length : ℚ) * p.segment_length ≤ effective_duration p
        ∧ effective_duration p
            - ((generate_segments p).length : ℚ) * p.segment_length < p.segment_length) := by
  have heff := effective_duration_nonneg p hL hLD
  have hnum := num_segments_nonneg p hL heff
  have hcastN : (((generate_segments p).length : ℤ)) = num_segments p := by
    rw [generate_segments_length]; exact Int.toNat_of_nonneg hnum
  refine ⟨?_, ?_, ?_, ?_, ?_, ?_⟩
  · rw [generate_segments_length]; rfl
  · intro i hi
    rw [generate_segments_get p hi]
    exact ⟨rfl, rfl, rfl⟩
  · intro i hi
    have hj : ((i + 1 : ℕ) : ℤ) < num_segments p := lt_num_of_lt_length p hi
    have hlt := mul_lt_eff_of_lt_num p hL hj
    unfold seg_end seg_start
    rw [min_eq_left]
    · push_cast; ring
    · push_cast at hlt ⊢; linarith
  · intro i hi
    have hj : (i : ℤ) < num_segments p := lt_num_of_lt_length p hi
    have hlt := mul_lt_eff_of_lt_num p hL hj
    unfold seg_start seg_end
    apply lt_min
    · nlinarith
    · exact hlt
  · intro hpart hpos
    have hceil : num_segments p = ⌈effective_duration p / p.segment_length⌉ := by
      unfold num_segments; rw [hpart]; simp
    have hxN : effective_duration p / p.segment_length ≤ ((generate_segments p).length : ℚ) := by
      have h1 := Int.le_ceil (effective_duration p / p.segment_length)
      rw [← hceil, ← hcastN] at h1
      exact_mod_cast h1
    have hle : effective_duration p ≤ ((generate_segments p).length : ℚ) * p.segment_length := by
      calc effective_duration p
          = (effective_duration p / p.segment_length) * p.segment_length :=
            (eff_eq_div_mul p hL).symm
        _ ≤ ((generate_segments p).length : ℚ) * p.segment_length :=
            mul_le_mul_of_nonneg_right hxN hL.le
    have hsub : (((generate_segments p).length - 1 : ℕ) : ℚ)
        = ((generate_segments p).length : ℚ) - 1 := by
      have : 1 ≤ (generate_segments p).length := hpos
      push_cast [Nat.cast_sub this]
      ring
    unfold seg_end
    rw [hsub, min_eq_right]
    linarith
  · intro hpart
    have hfloor : num_segments p = ⌊effective_duration p / p.segment_length⌋ := by
      unfold num_segments; rw [hpart]; simp
    refine ⟨?_, ?_, ?_⟩
    · intro i hi
      have h1 : (i : ℤ) < num_segments p := lt_num_of_lt_length p hi
      have h2 : ((i : ℤ)) + 1 ≤ ⌊effective_duration p / p.segment_length⌋ := by
        rw [← hfloor]; omega
      have h3 := Int.le_floor.mp h2
      have h4 : ((i : ℚ) + 1) * p.segment_length ≤ effective_duration p := by
        have h5 : ((i : ℚ) + 1) ≤ effective_duration p / p.segment_length := by
          exact_mod_cast h3
        calc ((i : ℚ) + 1) * p.segment_length
            ≤ (effective_duration p / p.segment_length) * p.segment_length :=
              mul_le_mul_of_nonneg_right h5 hL.le
          _ = effective_duration p := eff_eq_div_mul p hL
      unfold seg_duration seg_end seg_start
      rw [min_eq_left h4]
      ring
    · have h1 : ((generate_segments p).length : ℚ)
          ≤ effective_duration p / p.segment_length := by
        have h2 := Int.floor_le (effective_duration p / p.segment_length)
        rw [← hfloor, ← hcastN] at h2
        exact_mod_cast h2
      calc ((generate_segments p).length : ℚ) * p.segment_length
          ≤ (effective_duration p / p.segment_length) * p.segment_length :=
            mul_le_mul_of_nonneg_right h1 hL.le
        _ = effective_duration p := eff_eq_div_mul p hL
    · have h1 : effective_duration p / p.segment_length
          < ((generate_segments p).length : ℚ) + 1 := by
        have h2 := Int.lt_floor_add_one (effective_duration p / p.segment_length)
        rw [← hfloor, ← hcastN] at h2
        exact_mod_cast h2
      have h2 : effective_duration p
          < (((generate_segments p).length : ℚ) + 1) * p.segment_length := by
        calc effective_duration p
            = (effective_duration p / p.segment_length) * p.segment_length :=
              (eff_eq_div_mul p hL).symm
          _ < (((generate_segments p).length : ℚ) + 1) * p.segment_length :=
              mul_lt_mul_of_pos_right h1 hL
      linarith

/-- Witness for C1 at the example given in the spec, `D = 25`, `L = 10`,
`allowPartial = true`: the hypotheses hold and the plan has 3 segments. -/
theorem C1_segment_planning_witness :
    (generate_segments ⟨25, 10, 1/3, false, true⟩).length = 3 := by
  have h := C1_segment_planning ⟨25, 10, 1/3, false, true⟩ (by norm_num) (by norm_num)
  rw [h.1]
  norm_num [effective_duration]
  have h52 : ⌈(5 / 2 : ℚ)⌉ = 3 := by
    rw [Int.ceil_eq_iff]
    norm_num
  rw [h52]
  rfl

/-! ## Frame sampling lemmas -/

theorem linspace_length (a b : ℚ) (n : ℕ) : (linspace a b n).length = n := by
  unfold linspace
  split
  · simp_all
  · split
    · simp_all
    · simp

theorem linspace_mem_bounds {a b : ℚ} (hab : a ≤ b) {n : ℕ} {t : ℚ}
    (ht : t ∈ linspace a b n) : a ≤ t ∧ t ≤ b := by
  unfold linspace at ht
  split at ht
  · simp at ht
  · rename_i hn0
    split at ht
    · simp at ht
      exact ⟨le_of_eq ht.symm, by rw [ht]; exact hab⟩
    · rename_i hn1
      rcases List.mem_map.mp ht with ⟨i, hi, rfl⟩
      have hin : i < n := List.mem_range.mp hi
      have hn2 : 2 ≤ n := by omega
      have hm : (1 : ℚ) ≤ (n : ℚ) - 1 := by
        have : (2 : ℚ) ≤ (n : ℚ) := by exact_mod_cast hn2
        linarith
      have hmpos : (0 : ℚ) < (n : ℚ) - 1 := by linarith
      have him : (i : ℚ) ≤ (n : ℚ) - 1 := by
        have : (i : ℚ) + 1 ≤ (n : ℚ) := by exact_mod_cast hin
        linarith
      constructor
      · have h1 : 0 ≤ (i : ℚ) * (b - a) / ((n : ℚ) - 1) :=
          div_nonneg (mul_nonneg (Nat.cast_nonneg i) (by linarith)) hmpos.le
        linarith
      · have h1 : (i : ℚ) * (b - a) / ((n : ℚ) - 1) ≤ b - a := by
          rw [div_le_iff₀ hmpos]
          have := mul_le_mul_of_nonneg_right him (by linarith : (0 : ℚ) ≤ b - a)
          linarith
        linarith

theorem linspace_getLast (a b : ℚ) {n : ℕ} (hn : 2 ≤ n) :
    (linspace a b n).getLast? = some b := by
  unfold linspace
  have hn0 : n ≠ 0 := by omega
  have hn1 : n ≠ 1 := by omega
  rw [if_neg hn0, if_neg hn1]
  rw [List.getLast?_eq_getElem?]
  have hlen : ((List.range n).map fun (i : ℕ) =>
      a + (i : ℚ) * (b - a) / ((n : ℚ) - 1)).length = n := by simp
  rw [hlen]
  have hlt : n - 1 < n := by omega
  rw [List.getElem?_map, List.getElem?_range hlt]
  have hcast : ((n - 1 : ℕ) : ℚ) = (n : ℚ) - 1 := by
    have h1 : 1 ≤ n := by omega
    push_cast [Nat.cast_sub h1]
    ring
  have hne : ((n : ℚ) - 1) ≠ 0 := by
    have : (2 : ℚ) ≤ (n : ℚ) := by exact_mod_cast hn
    intro hzero
    linarith
  rw [Option.map_some']
  congr 1
  rw [hcast]
  field_simp

theorem round2_mono {q r : ℚ} (h : q ≤ r) : round2 q ≤ round2 r := by
  unfold round2
  have h1 : round (q * 100) ≤ round (r * 100) := by
    rw [round_eq, round_eq]
    exact Int.floor_mono (by linarith)
  have h2 : ((round (q * 100) : ℤ) : ℚ) ≤ ((round (r * 100) : ℤ) : ℚ) := by
    exact_mod_cast h1
  linarith

theorem seg_end_pEx : seg_end pEx 0 = 10 := by
  norm_num [seg_end, effective_duration, pEx]

theorem number_of_frames_pEx : number_of_frames_in_segment pEx 0 = 4 := by
  have hd : seg_duration pEx 0 = 10 := by
    norm_num [seg_duration, seg_end, seg_start, effective_duration, pEx]
  unfold number_of_frames_in_segment
  rw [hd]
  have hc : ⌈(10 : ℚ) * pEx.fps⌉ = 4 := by
    rw [show pEx.fps = 33/100 from rfl, Int.ceil_eq_iff]
    norm_num
  rw [hc]
  rfl

theorem segment_frames_times_pEx :
    segment_frames_times pEx 0 = [0, 333/100, 667/100, 10] := by
  have hs : seg_start pEx 0 = 0 := by norm_num [seg_start]
  unfold segment_frames_times
  rw [hs, seg_end_pEx, number_of_frames_pEx]
  have hls : linspace 0 10 4 = [0, 10/3, 20/3, 10] := by
    unfold linspace
    norm_num [List.range_succ]
  rw [hls]
  simp only [List.map_cons, List.map_nil]
  unfold round2
  norm_num [round_eq]

/-- C2 counterexample: for the segment `[0, 10)` of a 25-second video sampled
at `fps = 0.33`, the planner emits 4 frame times `[0, 3.33, 6.67, 10]` — the
last sample time equals the segment end, so not every sample time lies
strictly within `[start, end)` as the claim states. -/
theorem C2_counterexample :
    (10 : ℚ) ∈ segment_frames_times pEx 0
    ∧ ¬((10 : ℚ) < seg_end pEx 0) := by
  constructor
  · rw [segment_frames_times_pEx]
    simp
  · rw [seg_end_pEx]
    exact lt_irrefl 10

/-- C2 (amended): for every planned segment (of positive duration, which
holds for each planned index) and sampling rate `F > 0`, the planner assigns
exactly `ceil(duration * F)` frame sample times (at least one); every sample
time lies within the rounded **closed** interval
`[round2 start, round2 end]` — `numpy.linspace` includes its endpoint — and
whenever there are at least 2 samples the final sample time is exactly the
rounded segment end, so the segment end is itself a sample time rather than
being excluded. -/
theorem C2_frame_sampling (p : PlanParams)
    (hL : 0 < p.segment_length) (hLD : p.segment_length ≤ p.duration)
    (hF : 0 < p.fps) {i : ℕ} (hi : i < (generate_segments p).length) :
    (segment_frames_times p i).length = (⌈seg_duration p i * p.fps⌉).toNat
    ∧ 1 ≤ number_of_frames_in_segment p i
    ∧ (∀ t ∈ segment_frames_times p i,
        round2 (seg_start p i) ≤ t ∧ t ≤ round2 (seg_end p i))
    ∧ (2 ≤ number_of_frames_in_segment p i →
        (segment_frames_times p i).getLast? = some (round2 (seg_end p i))) := by
  have hj : (i : ℤ) < num_segments p := lt_num_of_lt_length p hi
  have hlt := mul_lt_eff_of_lt_num p hL hj
  have hse : seg_start p i < seg_end p i := by
    unfold seg_start seg_end
    apply lt_min
    · nlinarith
    · exact hlt
  have hd : 0 < seg_duration p i := by unfold seg_duration; linarith
  have hceil : 0 < ⌈seg_duration p i * p.fps⌉ := Int.ceil_pos.mpr (mul_pos hd hF)
  have hn1 : 1 ≤ number_of_frames_in_segment p i := by
    unfold number_of_frames_in_segment
    omega
  refine ⟨?_, hn1, ?_, ?_⟩
  · unfold segment_frames_times number_of_frames_in_segment
    rw [List.length_map, linspace_length]
  · intro t ht
    unfold segment_frames_times at ht
    rcases List.mem_map.mp ht with ⟨u, hu, rfl⟩
    have hb := linspace_mem_bounds (le_of_lt hse) hu
    exact ⟨round2_mono hb.1, round2_mono hb.2⟩
  · intro h2
    unfold segment_frames_times
    rw [List.getLast?_map, linspace_getLast _ _ h2]
    rfl

theorem generate_segments_pEx_length : (generate_segments pEx).length = 3 := by
  rw [generate_segments_length]
  unfold num_segments
  norm_num [effective_duration, pEx]
  rw [show ⌈(5 : ℚ)/2⌉ = 3 by rw [Int.ceil_eq_iff] <;> norm_num]
  rfl

/-- Witness for C2 (amended) at the `[0, 10)` segment of the 25-second video
with `fps = 0.33`: the hypotheses hold and the segment gets 4 sample times. -/
theorem C2_frame_sampling_witness :
    (segment_frames_times pEx 0).length = 4 := by
  have h := @C2_frame_sampling pEx (by norm_num [pEx]) (by norm_num [pEx])
      (by norm_num [pEx]) 0 (by rw [generate_segments_pEx_length]; norm_num)
  rw [h.1]
  show number_of_frames_in_segment pEx 0 = 4
  exact number_of_frames_pEx

/-! ## C3: `AnalysisQueue.submit` -/

/-- C3 counterexample: with `maxPendingJobs = 0` and an idle, non-shut-down
queue, the pending queue "already holds `maxPendingJobs` (= 0) jobs", so the
claim demands that `submit` raise an error — but `queue.Queue(maxsize=0)` is
an *unbounded* queue in Python, so the job is enqueued successfully. -/
theorem C3_counterexample :
    submit { config := cfgZero, pending := 0, isShutdown := false }
      = .enqueued 1
    ∧ (SubmitOutcome.enqueued 1).isError = false :=
  ⟨rfl, rfl⟩

theorem queue_is_full_eq (c : AnalysisQueueConfig) (pending : ℕ) :
    queue_is_full (queue_size c) pending
      = (decide (0 < c.max_pending_jobs) && decide (c.max_pending_jobs ≤ (pending : ℤ))) := by
  unfold queue_is_full queue_size
  by_cases hm : c.max_pending_jobs ≤ 0
  · rw [if_pos hm]
    have h0 : ¬ (0 < c.max_pending_jobs) := by omega
    simp [h0]
  · rw [if_neg hm]

/-- C3 (amended): `submit` never blocks; it raises an error exactly when the
queue has been shut down, or when `maxPendingJobs > 0` and the pending queue
already holds at least `maxPendingJobs` jobs. When `maxPendingJobs = 0` the
underlying `queue.Queue(maxsize=0)` is unbounded, so `submit` never fails
for fullness — there is unlimited queueing slack, not zero. -/
theorem C3_submit_behavior (s : QueueState) :
    ((submit s).isError = true
      ↔ (s.isShutdown = true
          ∨ (0 < s.config.max_pending_jobs
              ∧ s.config.max_pending_jobs ≤ (s.pending : ℤ))))
    ∧ (s.isShutdown = false → s.config.max_pending_jobs ≤ 0 →
        submit s = .enqueued (s.pending + 1)) := by
  rcases s with ⟨c, pending, shut⟩
  constructor
  · unfold submit
    rw [queue_is_full_eq]
    cases shut
    · simp only [Bool.false_eq_true, if_false, Bool.and_eq_true, decide_eq_true_eq]
      split_ifs with h
      · simp [SubmitOutcome.isError, h]
      · simp [SubmitOutcome.isError]
        omega
    · simp [SubmitOutcome.isError]
  · intro hshut hm
    have hm' : c.max_pending_jobs ≤ 0 := hm
    unfold submit
    rw [queue_is_full_eq]
    subst hshut
    have h1 : ¬ (0 < c.max_pending_jobs) := by omega
    simp [h1]

/-- Witness for C3 (amended): a non-shut-down queue built with
`maxPendingJobs = 0` and 5 jobs already pending still accepts a submission. -/
theorem C3_submit_behavior_witness :
    submit { config := cfgZero, pending := 5, isShutdown := false }
      = .enqueued 6 := by
  have h := C3_submit_behavior { config := cfgZero, pending := 5, isShutdown := false }
  exact h.2 rfl (by norm_num [cfgZero, cfgEx])

/-! ## C4: TokenBucket -/

theorem refill_locked_capacity (s : BucketState) (now : ℚ) :
    (refill_locked s now).capacity = s.capacity := by
  unfold refill_locked
  split <;> rfl

theorem refill_locked_tokens_le (s : BucketState) (now : ℚ)
    (h : s.tokens ≤ (s.capacity : ℚ)) :
    (refill_locked s now).tokens ≤ ((refill_locked s now).capacity : ℚ) := by
  unfold refill_locked
  split
  · exact h
  · exact min_le_left _ _

theorem try_acquire_capacity (s : BucketState) (n : ℤ) (now : ℚ) :
    ((try_acquire s n now).1).capacity = s.capacity := by
  unfold try_acquire
  split
  · rfl
  · split
    · exact refill_locked_capacity s now
    · exact refill_locked_capacity s now

theorem bucket_step_capacity (s : BucketState) (e : BucketEvent) :
    (bucket_step s e).capacity = s.capacity := by
  cases e
  · exact refill_locked_capacity _ _
  · exact try_acquire_capacity _ _ _

theorem bucket_step_tokens_le (s : BucketState) (e : BucketEvent)
    (h : s.tokens ≤ (s.capacity : ℚ)) :
    (bucket_step s e).tokens ≤ ((bucket_step s e).capacity : ℚ) := by
  cases e with
  | refill now => exact refill_locked_tokens_le s now h
  | acquire n now =>
    show ((try_acquire s n now).1).tokens ≤ (((try_acquire s n now).1).capacity : ℚ)
    unfold try_acquire
    split
    · exact h
    · rename_i hn
      have h1 := refill_locked_tokens_le s now h
      split
      · show (refill_locked s now).tokens - (n : ℚ)
            ≤ ((refill_locked s now).capacity : ℚ)
        have hn' : (0 : ℚ) < (n : ℚ) := by exact_mod_cast not_le.mp hn
        linarith
      · exact h1

theorem bucket_run_capacity (s : BucketState) (events : List BucketEvent) :
    (bucket_run s events).capacity = s.capacity := by
  induction events generalizing s with
  | nil => rfl
  | cons e rest ih =>
    show (bucket_run (bucket_step s e) rest).capacity = s.capacity
    rw [ih, bucket_step_capacity]

theorem bucket_run_tokens_le (s : BucketState) (events : List BucketEvent)
    (h : s.tokens ≤ (s.capacity : ℚ)) :
    (bucket_run s events).tokens ≤ ((bucket_run s events).capacity : ℚ) := by
  induction events generalizing s with
  | nil => exact h
  | cons e rest ih =>
    show (bucket_run (bucket_step s e) rest).tokens ≤ _
    exact ih _ (bucket_step_tokens_le s e h)

/-- C4: for a `TokenBucket` of capacity `C > 0` (the constructor enforces
positivity) and positive refill period: the constructor yields a full bucket;
`acquire(C)` immediately after construction is granted on its first loop
iteration (no waiting) at any clock reading; `acquire(n)` with `n ≤ 0`
returns at once leaving the state untouched; after any sequence of refills
and acquire attempts the token count never exceeds `C`; and consequently a
single request for more than `C` tokens is never granted, in any reachable
state. -/
theorem C4_token_bucket (C : ℤ) (period t0 : ℚ) (hC : 0 < C) (hp : 0 < period)
    (s0 : BucketState) (hmk : mkTokenBucket C period t0 = .ok s0) :
    (∀ now, (try_acquire s0 C now).2 = true)
    ∧ (∀ (s : BucketState) (n : ℤ) (now : ℚ), n ≤ 0 → try_acquire s n now = (s, true))
    ∧ (∀ events, (bucket_run s0 events).tokens ≤ (C : ℚ))
    ∧ (∀ events (n : ℤ) (now : ℚ), C < n →
        (try_acquire (bucket_run s0 events) n now).2 = false) := by
  have hs0 : s0 = { capacity := C, tokens := (C : ℚ),
                    refill_period := period, last_refill := t0 } := by
    unfold mkTokenBucket at hmk
    rw [if_neg (by omega)] at hmk
    exact ((Except.ok.injEq _ _).mp hmk).symm
  subst hs0
  have hCQ : (0 : ℚ) < (C : ℚ) := by exact_mod_cast hC
  have hfull : ∀ now, (refill_locked
      { capacity := C, tokens := (C : ℚ), refill_period := period,
        last_refill := t0 } now).tokens = (C : ℚ) := by
    intro now
    unfold refill_locked
    split
    · rfl
    · rename_i hpos
      simp only
      rw [min_eq_left]
      have h1 : (0 : ℚ) ≤ (now - t0) * ((C : ℚ) / period) := by
        apply mul_nonneg
        · simp only at hpos
          linarith [not_le.mp hpos]
        · positivity
      linarith
  refine ⟨?_, ?_, ?_, ?_⟩
  · intro now
    unfold try_acquire
    rw [if_neg (by omega : ¬ (C ≤ 0)), if_pos (by rw [hfull now])]
  · intro s n now hn
    unfold try_acquire
    rw [if_pos hn]
  · intro events
    have h1 := bucket_run_tokens_le
      { capacity := C, tokens := (C : ℚ), refill_period := period, last_refill := t0 }
      events le_rfl
    rw [bucket_run_capacity] at h1
    exact h1
  · intro events n now hn
    set s1 := bucket_run
      { capacity := C, tokens := (C : ℚ), refill_period := period, last_refill := t0 }
      events with hs1
    have hcap : s1.capacity = C := bucket_run_capacity _ _
    have htok : s1.tokens ≤ (C : ℚ) := by
      have h1 := bucket_run_tokens_le
        { capacity := C, tokens := (C : ℚ), refill_period := period, last_refill := t0 }
        events le_rfl
      rw [bucket_run_capacity] at h1
      exact h1
    have htok' : s1.tokens ≤ (s1.capacity : ℚ) := by rw [hcap]; exact htok
    have h2 := refill_locked_tokens_le s1 now htok'
    rw [refill_locked_capacity, hcap] at h2
    have h3 : ¬ ((n : ℚ) ≤ (refill_locked s1 now).tokens) := by
      have hnQ : (C : ℚ) < (n : ℚ) := by exact_mod_cast hn
      linarith
    unfold try_acquire
    rw [if_neg (by omega : ¬ (n ≤ 0)), if_neg h3]

/-- Witness for C4: a fresh bucket of capacity 10 (refill period 60 s,
constructed at time 0) grants `acquire(10)` immediately. -/
theorem C4_token_bucket_witness :
    (try_acquire { capacity := 10, tokens := 10, refill_period := 60, last_refill := 0 }
      10 0).2 = true := by
  have h := C4_token_bucket 10 60 0 (by norm_num) (by norm_num)
      { capacity := 10, tokens := 10, refill_period := 60, last_refill := 0 } rfl
  exact h.1 0

/-! ## C5: chunked-transcript reassembly -/

theorem foldl_extend_words (acc : TranscriptionResult) (l : List TranscriptionResult) :
    (l.foldl TranscriptionResult.extend acc).words
      = acc.words ++ (l.map TranscriptionResult.words).join := by
  induction l generalizing acc with
  | nil => simp
  | cons t rest ih =>
    simp only [List.foldl_cons, List.map_cons, List.join]
    rw [ih]
    show (TranscriptionResult.extend acc t).words ++ _ = _
    simp [TranscriptionResult.extend, List.append_assoc]

theorem foldl_extend_segments (acc : TranscriptionResult) (l : List TranscriptionResult) :
    (l.foldl TranscriptionResult.extend acc).segments
      = acc.segments ++ (l.map TranscriptionResult.segments).join := by
  induction l generalizing acc with
  | nil => simp
  | cons t rest ih =>
    simp only [List.foldl_cons, List.map_cons, List.join]
    rw [ih]
    show (TranscriptionResult.extend acc t).segments ++ _ = _
    simp [TranscriptionResult.extend, List.append_assoc]

theorem extend_duration_some (acc t : TranscriptionResult) {da d : ℚ}
    (hacc : acc.duration = some da) (ht : t.duration = some d) :
    (TranscriptionResult.extend acc t).duration = some (max da d) := by
  show (match t.duration, acc.duration with
    | none, d => d
    | some od, none => some od
    | some od, some sd => some (max sd od)) = some (max da d)
  rw [hacc, ht]

theorem foldl_extend_duration (l : List TranscriptionResult) :
    ∀ (acc : TranscriptionResult) (da : ℚ), acc.duration = some da →
    (∀ t ∈ l, ∃ d, t.duration = some d) →
    (l.foldl TranscriptionResult.extend acc).duration
      = some (l.foldl (fun m t => max m (t.duration.getD 0)) da) := by
  induction l with
  | nil =>
    intro acc da hacc _
    simpa using hacc
  | cons t rest ih =>
    intro acc da hacc hl
    obtain ⟨d, hd⟩ := hl t (List.mem_cons_self _ _)
    simp only [List.foldl_cons]
    rw [ih _ (max da d) (extend_duration_some acc t hacc hd)
        (fun u hu => hl u (List.mem_cons_of_mem _ hu))]
    rw [hd]
    rfl

theorem foldl_max_mem (a : ℚ) (l : List ℚ) : l.foldl max a ∈ a :: l := by
  induction l generalizing a with
  | nil => simp
  | cons b rest ih =>
    have h := ih (max a b)
    rw [List.foldl_cons]
    rcases List.mem_cons.mp h with h1 | h1
    · rcases max_choice a b with h2 | h2 <;> rw [h1, h2] <;> simp
    · exact List.mem_cons_of_mem _ (List.mem_cons_of_mem _ h1)

theorem le_foldl_max (a : ℚ) (l : List ℚ) : ∀ x ∈ a :: l, x ≤ l.foldl max a := by
  induction l generalizing a with
  | nil =>
    intro x hx
    simp at hx
    simp [hx]
  | cons b rest ih =>
    intro x hx
    rw [List.foldl_cons]
    rcases List.mem_cons.mp hx with rfl | hx1
    · exact le_trans (le_max_left x b) (ih (max x b) _ (List.mem_cons_self _ _))
    · rcases List.mem_cons.mp hx1 with rfl | hx2
      · exact le_trans (le_max_right a x) (ih (max a x) _ (List.mem_cons_self _ _))
      · exact ih (max a b) x (List.mem_cons_of_mem _ hx2)

/-- C5: when chunked audio transcripts are merged, every word and
speech-segment timestamp of each chunk is shifted forward by the start
offset of that chunk, the shifted chunk contents are concatenated in original chunk
order, and the combined duration is the **maximum** of the chunk end-offsets
(`chunkDuration + chunkStart`), not their sum. -/
theorem C5_chunk_merge (chunks : List (TranscriptionResult × ℚ))
    (hne : chunks ≠ [])
    (hdur : ∀ c ∈ chunks, ∃ d, c.1.duration = some d) :
    ∃ T, combine_chunks chunks = some T
      ∧ T.words = (chunks.map fun c => c.1.words.map (shift_word c.2)).join
      ∧ T.segments = (chunks.map fun c => c.1.segments.map (shift_segment c.2)).join
      ∧ ∃ m, T.duration = some m
          ∧ m ∈ chunks.map (fun c => c.1.duration.getD 0 + c.2)
          ∧ ∀ x ∈ chunks.map (fun c => c.1.duration.getD 0 + c.2), x ≤ m := by
  rcases chunks with _ | ⟨c0, rest⟩
  · exact absurd rfl hne
  obtain ⟨d0, hd0⟩ := hdur c0 (List.mem_cons_self _ _)
  have hTeq : combine_chunks (c0 :: rest)
      = some ((rest.map fun c => process_chunk c.1 c.2).foldl TranscriptionResult.extend
          (process_chunk c0.1 c0.2)) := by
    unfold combine_chunks parallelize_transcription
    simp only [List.map_cons]
  refine ⟨((rest.map fun c => process_chunk c.1 c.2).foldl TranscriptionResult.extend
      (process_chunk c0.1 c0.2)), hTeq, ?_, ?_, ?_⟩
  · rw [foldl_extend_words]
    simp only [List.map_cons, List.join, List.map_map]
    rfl
  · rw [foldl_extend_segments]
    simp only [List.map_cons, List.join, List.map_map]
    rfl
  · have hacc : (process_chunk c0.1 c0.2).duration = some (d0 + c0.2) := by
      show (c0.1.duration.map (· + c0.2)) = _
      rw [hd0]
      rfl
    have hl : ∀ t ∈ rest.map fun c => process_chunk c.1 c.2, ∃ d, t.duration = some d := by
      intro t ht
      rcases List.mem_map.mp ht with ⟨c, hc, rfl⟩
      obtain ⟨d, hd⟩ := hdur c (List.mem_cons_of_mem _ hc)
      refine ⟨d + c.2, ?_⟩
      show (c.1.duration.map (· + c.2)) = _
      rw [hd]
      rfl
    rw [foldl_extend_duration _ _ _ hacc hl]
    have hfold : ((rest.map fun c => process_chunk c.1 c.2).foldl
          (fun m t => max m (t.duration.getD 0)) (d0 + c0.2))
        = ((rest.map fun c => c.1.duration.getD 0 + c.2).foldl max (d0 + c0.2)) := by
      rw [List.foldl_map, List.foldl_map]
      apply List.foldl_ext
      intro a c hc
      obtain ⟨d, hd⟩ := hdur c (List.mem_cons_of_mem _ hc)
      have h1 : (process_chunk c.1 c.2).duration = some (d + c.2) := by
        show (c.1.duration.map (· + c.2)) = _
        rw [hd]
        rfl
      rw [h1, hd]
      rfl
    rw [hfold]
    refine ⟨_, rfl, ?_, ?_⟩
    · have h := foldl_max_mem (d0 + c0.2) (rest.map fun c => c.1.duration.getD 0 + c.2)
      simp only [List.map_cons]
      rw [show c0.1.duration.getD 0 + c0.2 = d0 + c0.2 by rw [hd0]; rfl]
      exact h
    · intro x hx
      apply le_foldl_max (d0 + c0.2) (rest.map fun c => c.1.duration.getD 0 + c.2)
      simp only [List.map_cons] at hx
      rw [show c0.1.duration.getD 0 + c0.2 = d0 + c0.2 by rw [hd0]; rfl] at hx
      exact hx

/-- Witness for C5: two 4-second chunks at offsets 0 and 4 merge into a
transcript whose duration is the max of the end-offsets, 8 (not the sum 12),
with the word of the second chunk shifted to `[5, 6]`. -/
theorem C5_chunk_merge_witness :
    ∃ T, combine_chunks
        [({ text := "hello", duration := some 4,
            words := [{ word := "hello", start := 0, endTime := 1, confidence := none }],
            segments := [] }, 0),
         ({ text := "world", duration := some 4,
            words := [{ word := "world", start := 1, endTime := 2, confidence := none }],
            segments := [] }, 4)] = some T
      ∧ T.duration = some 8
      ∧ T.words = [{ word := "hello", start := 0, endTime := 1, confidence := none },
                   { word := "world", start := 5, endTime := 6, confidence := none }] := by
  obtain ⟨T, hT, hw, hs, m, hm, hmem, hub⟩ := C5_chunk_merge
    [({ text := "hello", duration := some 4,
        words := [{ word := "hello", start := 0, endTime := 1, confidence := none }],
        segments := [] }, 0),
     ({ text := "world", duration := some 4,
        words := [{ word := "world", start := 1, endTime := 2, confidence := none }],
        segments := [] }, 4)]
    (by simp)
    (by intro c hc
        rcases List.mem_cons.mp hc with rfl | hc1
        · exact ⟨4, rfl⟩
        · rcases List.mem_cons.mp hc1 with rfl | hc2
          · exact ⟨4, rfl⟩
          · simp at hc2)
  refine ⟨T, hT, ?_, ?_⟩
  · have h8 : m = 8 := by
      have hub8 := hub 8 (by norm_num)
      have : m = 4 + 0 ∨ m = 4 + 4 := by
        simpa using hmem
      rcases this with rfl | rfl <;> norm_num at hub8 ⊢
    rw [hm, h8]
  · rw [hw]
    norm_num [shift_word]

/-! ## C6: transcript slicing -/

/-- C6 counterexample: the legacy copy of `parse_transcript`
(`cobrapy/cobra_utils.py`) uses the strict boundary test
`word["start"] > start_time`, so for a window starting exactly at the start
time of a word (word at `[5, 6]`, window `[5, 10]`) it returns the empty string
where the claim demands the word be included — as the current copy does. -/
theorem C6_counterexample :
    parse_transcript_legacy tEx 5 10 = .ok ("")
    ∧ parse_transcript tEx 5 10 = .ok ("hello")
    ∧ tEx.words = [{ word := "hello", start := 5, endTime := 6, confidence := none }] := by
  refine ⟨?_, ?_, rfl⟩
  · have h1 : ¬ ((5 : ℚ) > 10) := by norm_num
    have h2 : ¬ ((5 : ℚ) < 0) := by norm_num
    unfold parse_transcript_legacy
    rw [if_neg h1, if_neg h2]
    have h3 : tEx.words.filter
        (fun w => decide (w.start > 5) && decide (w.endTime ≤ 10)) = [] := by
      show List.filter _ [wEx] = []
      have : ¬ (wEx.start > (5 : ℚ)) := by norm_num [wEx]
      simp [this]
    rw [h3]
    rfl
  · have h1 : ¬ ((5 : ℚ) > 10) := by norm_num
    have h2 : ¬ ((5 : ℚ) < 0) := by norm_num
    unfold parse_transcript
    rw [if_neg h1, if_neg h2]
    have h3 : tEx.words.filter
        (fun w => decide (w.start ≥ 5) && decide (w.endTime ≤ 10)) = [wEx] := by
      show List.filter _ [wEx] = [wEx]
      have ha : wEx.start ≥ (5 : ℚ) := by norm_num [wEx]
      have hb : wEx.endTime ≤ (10 : ℚ) := by norm_num [wEx]
      simp [ha, hb]
    rw [h3]
    rfl

/-- C6 (amended): for the **current** `parse_transcript`
(`src/cobrapy/cobra_utils.py`), slicing raises an error exactly when
`startTime > endTime` or `startTime < 0`, and on a valid window returns
exactly the words whose `start ≥ segmentStart` and `end ≤ segmentEnd`, as a
sublist in original order, joined with single spaces. (The legacy copy in
`cobrapy/cobra_utils.py` instead uses the strict bound
`start > segmentStart`, excluding words that begin exactly at the window
start — see the counterexample.) -/
theorem C6_parse_transcript (t : TranscriptionResult) (s e : ℚ) :
    ((∃ msg, parse_transcript t s e = Except.error msg) ↔ (s > e ∨ s < 0))
    ∧ (0 ≤ s → s ≤ e →
      ∃ kept : List WordTiming,
        kept.Sublist t.words
        ∧ (∀ w, w ∈ kept ↔ w ∈ t.words ∧ s ≤ w.start ∧ w.endTime ≤ e)
        ∧ parse_transcript t s e
            = .ok (String.intercalate (" ") (kept.map WordTiming.word))) := by
  constructor
  · unfold parse_transcript
    split_ifs with h1 h2
    · simp only [Except.error.injEq, exists_eq']
      constructor
      · intro _
        exact Or.inl h1
      · intro _
        trivial
    · simp only [Except.error.injEq, exists_eq']
      constructor
      · intro _
        exact Or.inr h2
      · intro _
        trivial
    · constructor
      · rintro ⟨msg, hmsg⟩
        cases hmsg
      · intro h
        rcases h with h | h
        · exact absurd h h1
        · exact absurd h h2
  · intro h0 hse
    refine ⟨t.words.filter fun w => decide (w.start ≥ s) && decide (w.endTime ≤ e),
        List.filter_sublist _, ?_, ?_⟩
    · intro w
      rw [List.mem_filter]
      simp [and_assoc]
    · unfold parse_transcript
      rw [if_neg (not_lt.mpr hse), if_neg (not_lt.mpr h0)]

/-- Witness for C6 (amended): slicing `tEx` over the window `[0, 10]`
includes the word and yields `"hello"`. -/
theorem C6_parse_transcript_witness :
    parse_transcript tEx 0 10 = .ok ("hello") := by
  obtain ⟨kept, hsub, hmem, hout⟩ :=
    (C6_parse_transcript tEx 0 10).2 (by norm_num) (by norm_num)
  have hw : wEx ∈ kept := (hmem wEx).mpr
    ⟨by simp [tEx], by norm_num [wEx], by norm_num [wEx]⟩
  have hkept : kept = [wEx] := by
    have hsub' : kept.Sublist [wEx] := hsub
    rcases List.sublist_singleton.mp hsub' with rfl | rfl
    · simp at hw
    · rfl
  rw [hout, hkept]
  rfl

/-! ## C7: per-segment failure isolation and skip-if-processed -/

theorem map_fst_getD (segs : List (SegmentInfo × SegmentWork)) (i : ℕ) :
    (segs.map Prod.fst).getD i { processed := true }
      = (segs.getD i ({ processed := true },
          { frame_extraction := .ok [], transcript_slice := .ok ("") })).1 := by
  rw [List.getD_eq_getElem?_getD, List.getElem?_map, List.getD_eq_getElem?_getD]
  cases segs[i]? with
  | none => rfl
  | some x => rfl

/-- C7: `_preprocess_segment` never lets an exception escape — it always
returns `(index, success)` for its own index, with `success = false` exactly
when frame extraction failed or (with transcripts enabled) the transcript
slice failed; the dispatch pass writes results back element-wise by index
(so each output segment depends only on its own input entry — sibling
segments are unaffected), leaves already-processed segments untouched, and
submits exactly the segments whose `processed` flag is `false`. -/
theorem C7_segment_failure_isolation (flag : Bool)
    (segs : List (SegmentInfo × SegmentWork)) :
    (∀ (w : SegmentWork) (j : ℕ),
      (preprocess_segment flag w j).1 = j
      ∧ ((preprocess_segment flag w j).2 = false
          ↔ ((∃ m, w.frame_extraction = .error m)
              ∨ (flag = true ∧ ∃ m, w.transcript_slice = .error m))))
    ∧ (run_preprocess_pass flag segs).length = segs.length
    ∧ (∀ i, i < segs.length →
        (run_preprocess_pass flag segs).getD i { processed := true }
          = process_one flag i
              (segs.getD i ({ processed := true },
                { frame_extraction := .ok [], transcript_slice := .ok ("") })))
    ∧ (∀ i, i < segs.length →
        (segs.getD i ({ processed := true },
          { frame_extraction := .ok [], transcript_slice := .ok ("") })).1.processed = true →
          (run_preprocess_pass flag segs).getD i { processed := true }
            = (segs.getD i ({ processed := true },
                { frame_extraction := .ok [], transcript_slice := .ok ("") })).1
          ∧ i ∉ submitted_indices (segs.map Prod.fst))
    ∧ (∀ i, i ∈ submitted_indices (segs.map Prod.fst)
        ↔ (i < segs.length
            ∧ (segs.getD i ({ processed := true },
                { frame_extraction := .ok [], transcript_slice := .ok ("") })).1.processed
              = false)) := by
  have hA : ∀ (w : SegmentWork) (j : ℕ),
      (preprocess_segment flag w j).1 = j
      ∧ ((preprocess_segment flag w j).2 = false
          ↔ ((∃ m, w.frame_extraction = .error m)
              ∨ (flag = true ∧ ∃ m, w.transcript_slice = .error m))) := by
    intro w j
    unfold preprocess_segment
    cases hfe : w.frame_extraction with
    | error m => simp
    | ok v =>
      cases flag with
      | false => simp
      | true =>
        cases hts : w.transcript_slice with
        | error m => simp
        | ok r => simp
  have hC : ∀ i, i < segs.length →
      (run_preprocess_pass flag segs).getD i { processed := true }
        = process_one flag i
            (segs.getD i ({ processed := true },
              { frame_extraction := .ok [], transcript_slice := .ok ("") })) := by
    intro i hi
    unfold run_preprocess_pass
    rw [List.getD_eq_getElem?_getD, List.getElem?_map, List.getElem?_range hi]
    rfl
  have hE : ∀ i, i ∈ submitted_indices (segs.map Prod.fst)
      ↔ (i < segs.length
          ∧ (segs.getD i ({ processed := true },
              { frame_extraction := .ok [], transcript_slice := .ok ("") })).1.processed
            = false) := by
    intro i
    unfold submitted_indices
    rw [List.mem_filter, List.mem_range, List.length_map, map_fst_getD]
    simp
  refine ⟨hA, ?_, hC, ?_, hE⟩
  · unfold run_preprocess_pass
    simp
  · intro i hi hp
    constructor
    · rw [hC i hi]
      unfold process_one
      rw [if_pos hp]
    · intro hmem
      have h1 := (hE i).mp hmem
      rw [hp] at h1
      exact absurd h1.2 (by simp)

/-- Witness for C7: a two-segment manifest where segment 0 is already
processed and frame extraction fails for segment 1 — the pass leaves segment 0
untouched and not submitted, and records segment 1 as `processed = false`. -/
theorem C7_segment_failure_isolation_witness :
    (run_preprocess_pass true segsEx).getD 1 { processed := true } = { processed := false }
    ∧ 1 ∈ submitted_indices (segsEx.map Prod.fst)
    ∧ 0 ∉ submitted_indices (segsEx.map Prod.fst) := by
  obtain ⟨hA, hB, hC, hD, hE⟩ := C7_segment_failure_isolation true segsEx
  refine ⟨?_, ?_, ?_⟩
  · rw [hC 1 (by norm_num [segsEx])]
    rfl
  · exact (hE 1).mpr ⟨by norm_num [segsEx], rfl⟩
  · intro hmem
    exact absurd ((hE 0).mp hmem).2 (by decide)

/-! ## C8 and C9: token estimation -/

/-- C8: `estimate_tokens` returns
`baseTokensPerRequest + segmentCount * tokensPerSegment`, plus — when prompt
(lens) text is supplied — `min(floor(len(promptText) / charsPerToken),
maxLensBonus)`, the whole capped at the capacity of the token bucket
(`tokens_per_minute`); in particular the result never exceeds
`tokens_per_minute`. (Stated for configurations with `charsPerToken ≥ 1` and
`maxLensBonus ≥ 0`, which the environment parser guarantees.) -/
theorem C8_estimate_tokens (c : AnalysisQueueConfig) (m : ManifestModel)
    (hchars : 1 ≤ c.lens_chars_per_token) (hbonus : 0 ≤ c.max_lens_token_bonus) :
    (∀ lens : String,
      estimate_tokens c m (some lens)
        = min (c.base_tokens_per_request + code_segment_count m * c.tokens_per_segment
            + min (Int.fdiv (lens.length : ℤ) c.lens_chars_per_token) c.max_lens_token_bonus)
          c.tokens_per_minute)
    ∧ estimate_tokens c m none
        = min (c.base_tokens_per_request + code_segment_count m * c.tokens_per_segment)
            c.tokens_per_minute
    ∧ (∀ lens, estimate_tokens c m lens ≤ c.tokens_per_minute) := by
  have hmaxc : max c.lens_chars_per_token 1 = c.lens_chars_per_token := max_eq_left hchars
  refine ⟨?_, rfl, ?_⟩
  · intro lens
    by_cases hempty : lens = ""
    · subst hempty
      have hlen : ((String.length "" : ℕ) : ℤ) = 0 := rfl
      rw [hlen, Int.zero_fdiv, min_eq_left hbonus, add_zero]
      rfl
    · simp only [estimate_tokens]
      rw [if_pos hempty, hmaxc]
      have hfd : 0 ≤ Int.fdiv ((lens.length : ℕ) : ℤ) c.lens_chars_per_token :=
        Int.fdiv_nonneg (Int.ofNat_nonneg _) (by omega)
      rw [max_eq_left hfd]
  · intro lens
    exact min_le_right _ _

/-- Witness for C8: with the default configuration and a 10-segment manifest
and no prompt text, the estimate is `9000 + 10*450 = 13500` (far below the
1,000,000-token cap). -/
theorem C8_estimate_tokens_witness :
    estimate_tokens cfgEx mEx none = 13500 := by
  have h := C8_estimate_tokens cfgEx mEx (by norm_num [cfgEx]) (by norm_num [cfgEx])
  rw [h.2.1]
  rfl

/-- C9 (implicit-behaviour check): when the `segments` list of the manifest is
absent (`None`) or empty, `estimate_tokens` falls back to
`segment_metadata.num_segments` for the segment count, treating a missing or
falsy (`None`/`0`) value as 0 — a manifest whose segments were planned but
not attached still yields a per-segment estimate. -/
theorem C9_segment_count_fallback (c : AnalysisQueueConfig)
    (meta : Option SegmentMetadataModel) (lens : Option String) :
    (estimate_tokens c { segments := none, segment_metadata := meta } lens
      = estimate_tokens c { segments := some [], segment_metadata := meta } lens)
    ∧ (code_segment_count { segments := none, segment_metadata := meta }
        = py_or_zero (meta.bind SegmentMetadataModel.num_segments))
    ∧ py_or_zero none = 0
    ∧ py_or_zero (some 0) = 0
    ∧ (∀ n : ℤ, n ≠ 0 → py_or_zero (some n) = n)
    ∧ (∀ k : ℤ, meta = some { num_segments := some k } → k ≠ 0 →
        code_segment_count { segments := none, segment_metadata := meta } = k) := by
  refine ⟨?_, rfl, rfl, rfl, ?_, ?_⟩
  · cases lens <;> rfl
  · intro n hn
    show (if n = 0 then 0 else n) = n
    rw [if_neg hn]
  · intro k hk hne
    subst hk
    show (if k = 0 then 0 else k) = k
    rw [if_neg hne]

/-- Witness for C9: a manifest with no attached segments but
`segment_metadata.num_segments = 7` gets segment count 7. -/
theorem C9_segment_count_fallback_witness :
    code_segment_count
      { segments := none, segment_metadata := some { num_segments := some 7 } } = 7 := by
  have h := C9_segment_count_fallback cfgEx (some { num_segments := some 7 }) none
  exact h.2.2.2.2.2 7 rfl (by norm_num)

/-! ## C10: transcript flag forced off without audio -/

/-- C10: the parameter-setting prefix of `preprocess_video` forces the
`generate_transcript_flag` of the manifest to `false` whenever the source video
has no audio track (`audio_found = false`), regardless of the caller passing
`generate_transcripts_flag = true`; only when audio is present does the
flag of the caller take effect. -/
theorem C10_transcript_flag_forced (video_duration : ℚ) (audio_found : Bool)
    (fps segment_length : ℚ) (gt_flag trim allow : Bool)
    (hfps : 0 < fps) (hlen : 0 < segment_length)
    (hdur : segment_length ≤ video_duration) :
    ∃ params,
      set_processing_params video_duration audio_found fps segment_length
        gt_flag trim allow = .ok params
      ∧ (audio_found = false → params.generate_transcript_flag = false)
      ∧ (audio_found = true → params.generate_transcript_flag = gt_flag) := by
  have h1 : ¬ (fps ≤ 0) := not_le.mpr hfps
  have h2 : ¬ (segment_length ≤ 0 ∨ video_duration < segment_length) := by
    push_neg
    exact ⟨hlen, hdur⟩
  refine ⟨{ fps := fps, segment_length := segment_length,
            generate_transcript_flag := if audio_found = false then false else gt_flag,
            trim_to_nearest_second := trim, allow_partial_segments := allow }, ?_, ?_, ?_⟩
  · unfold set_processing_params
    rw [if_neg h1, if_neg h2]
  · intro ha
    show (if audio_found = false then false else gt_flag) = false
    rw [if_pos ha]
  · intro ha
    show (if audio_found = false then false else gt_flag) = gt_flag
    rw [ha]
    rfl

/-- Witness for C10: a 10-second silent video (`audio_found = false`) with
the caller requesting transcripts still ends up with the flag off. -/
theorem C10_transcript_flag_forced_witness :
    ∃ params,
      set_processing_params 10 false 1 5 true false true = .ok params
      ∧ params.generate_transcript_flag = false := by
  obtain ⟨params, hok, hfalse, htrue⟩ :=
    C10_transcript_flag_forced 10 false 1 5 true false true
      (by norm_num) (by norm_num) (by norm_num)
  exact ⟨params, hok, hfalse rfl⟩
